import Mathlib

/-!
Shallow embedding of the analysis pipeline in `src/revenueAnalyzer.ts`
(revenue-tracker-mvp).

Modelling conventions:
- JavaScript numbers are idealised as `ℚ` (exact rational arithmetic in
  place of IEEE-754 doubles); `Math.round` becomes `jsRound` below.
- JavaScript strings are `String`/`List Char` (code points in place of
  UTF-16 units; no input in scope uses surrogate pairs).
- `toUpperCase`/`toLowerCase` are modelled per-character with Lean's
  ASCII `Char.toUpper`/`Char.toLower`; every currency marker and keyword
  the code compares against is unchanged by full Unicode case mapping on
  its own letters, so this is faithful on the table entries.
- `num.toLocaleString()` is modelled for the default `en-US` style
  number format: thousands grouping by commas, at most three fraction
  digits (half-away-from-zero), no trailing fraction zeros.
- The OCR engine (`extractTextFromImage`, Tesseract) is external; the
  orchestrator is modelled as a function of that call's outcome, an
  `Except ε String` (error = the extractor threw, ok = extracted text).
- `parseFloat` on the tokens the regex can produce (digit groups with
  optional commas and an optional fraction) always yields a finite
  value, so the `isNaN` filter in `extractNumbers` never removes
  anything; the embedding parses those tokens exactly.
-/

/-- JavaScript `Math.round`: round half toward positive infinity. -/
def jsRound (q : ℚ) : ℤ := ⌊q + 1/2⌋

/-- Decimal digit character for `d < 10`. -/
def digitChar (d : Nat) : Char := Char.ofNat (48 + d)

/-- Big-endian decimal digits of a natural number, fuel-driven
(`fuel ≥ number of digits` suffices; `natDigits` supplies `n + 1`). -/
def natDigitsAux : Nat → Nat → List Char
  | 0, _ => []
  | _ + 1, 0 => []
  | fuel + 1, n => natDigitsAux fuel (n / 10) ++ [digitChar (n % 10)]

/-- Big-endian decimal digit string of a natural number. -/
def natDigits (n : Nat) : List Char :=
  if n = 0 then ['0'] else natDigitsAux (n + 1) n

/-- Insert `','` after every three characters of a reversed digit list;
the counter is the number of digits still to emit before the next comma. -/
def groupRevAux : Nat → List Char → List Char
  | _, [] => []
  | 0, c :: cs => ',' :: c :: groupRevAux 2 cs
  | k + 1, c :: cs => c :: groupRevAux k cs

/-- Thousands grouping (`45680 ↦ 45,680`) of a digit string. -/
def groupDigits (ds : List Char) : List Char :=
  (groupRevAux 3 ds.reverse).reverse

/-- Drop trailing `'0'` characters. -/
def trimTrailingZeros (ds : List Char) : List Char :=
  (ds.reverse.dropWhile (fun c => c == '0')).reverse

/-- `toLocaleString` of a nonnegative rational: grouped integer part and
at most three fraction digits, trailing zeros trimmed. -/
def toLocaleAbs (q : ℚ) : List Char :=
  let m : Nat := (⌊q * 1000 + 1/2⌋).toNat
  let ip := m / 1000
  let fp := m % 1000
  let fracPart : List Char :=
    if fp = 0 then []
    else '.' :: trimTrailingZeros
      [digitChar (fp / 100), digitChar (fp / 10 % 10), digitChar (fp % 10)]
  groupDigits (natDigits ip) ++ fracPart

/-- Model of JavaScript `num.toLocaleString()` (default locale). -/
def toLocaleChars (q : ℚ) : List Char :=
  if q < 0 then '-' :: toLocaleAbs (-q) else toLocaleAbs q

/-!
Number tokenizer: the regex
`/\d{1,3}(,\d{3})*(\.\d+)?|\d+\.\d+|\d+/g` of `extractNumbers`.
Every alternative starts with a digit and the first alternative already
succeeds at any digit (its tail parts are optional and its leading
`\d{1,3}` is greedy with no profitable backtracking), so a global match
is: at each digit position take up to three digits, then as many
`,ddd` groups as possible, then an optional `.d+` fraction.
-/

/-- Greedy `\d{1,3}`: up to three leading digits, and the rest. -/
def take3Digits (cs : List Char) : List Char × List Char :=
  let n := min 3 (cs.takeWhile Char.isDigit).length
  (cs.take n, cs.drop n)

/-- Greedy `(,\d{3})*`: comma-plus-three-digit groups, and the rest. -/
def takeGroups : List Char → List Char × List Char
  | ',' :: c1 :: c2 :: c3 :: rest =>
    if c1.isDigit && c2.isDigit && c3.isDigit then
      let p := takeGroups rest
      (',' :: c1 :: c2 :: c3 :: p.1, p.2)
    else ([], ',' :: c1 :: c2 :: c3 :: rest)
  | cs => ([], cs)

/-- Greedy `(\.\d+)?`: an optional dot-fraction, and the rest. -/
def takeFrac : List Char → List Char × List Char
  | '.' :: rest =>
    let ds := rest.takeWhile Char.isDigit
    if ds.isEmpty then ([], '.' :: rest)
    else ('.' :: ds, rest.dropWhile Char.isDigit)
  | cs => ([], cs)

/-- One regex match starting at a digit position. -/
def matchTok (cs : List Char) : List Char × List Char :=
  let d := take3Digits cs
  let g := takeGroups d.2
  let f := takeFrac g.2
  (d.1 ++ g.1 ++ f.1, f.2)

/-- Global scan producing the successive matches; each step consumes at
least one character, so fuel equal to the text length suffices. -/
def tokenizeAux : Nat → List Char → List (List Char)
  | 0, _ => []
  | _ + 1, [] => []
  | fuel + 1, c :: cs =>
    if c.isDigit then
      let p := matchTok (c :: cs)
      p.1 :: tokenizeAux fuel p.2
    else tokenizeAux fuel cs

/-- All regex matches of the number pattern, left to right. -/
def tokenize (cs : List Char) : List (List Char) := tokenizeAux cs.length cs

/-- Value of a digit string. -/
def digitsToNat (ds : List Char) : Nat :=
  ds.foldl (fun a c => 10 * a + (c.toNat - 48)) 0

/-- `parseFloat(match.replace(/,/g, ''))` on a token produced by the
number pattern: strip commas, split at the dot, read decimal. -/
def parseTok (tok : List Char) : ℚ :=
  let cleaned := tok.filter (fun c => c != ',')
  let ip := cleaned.takeWhile (fun c => c != '.')
  let fp := (cleaned.dropWhile (fun c => c != '.')).drop 1
  (digitsToNat ip : ℚ) + (digitsToNat fp : ℚ) / ((10 : ℚ) ^ fp.length)

/-- STEP 2 of the source: find the number tokens, parse them and keep
the positive ones (the `isNaN` filter never fires, see header note). -/
def extractNumbers (text : String) : List ℚ :=
  ((tokenize text.data).map parseTok).filter (fun q => decide (0 < q))

/-- Model of `text.indexOf(pat)`: index of the first occurrence. -/
def firstIndexOf (cs pat : List Char) : Option Nat :=
  if pat.isPrefixOf cs then some 0
  else
    match cs with
    | [] => none
    | _ :: rest => (firstIndexOf rest pat).map (fun k => k + 1)

/-- Model of `haystack.includes(pat)` (substring containment, equal to
`indexOf(pat) !== -1` in JavaScript). -/
def listContains (cs pat : List Char) : Bool := (firstIndexOf cs pat).isSome

/-- The `currencyMap` object entries in source order.  The third, sixth,
eighth and tenth markers are embedded exactly as the bytes of the source
file spell them (the file stores mojibake for the dirham, euro, pound
and rupee symbols). -/
def currencyEntries : List (String × String) :=
  [("AED", "AED"), ("Dh", "AED"),
   ("ÿØÿ±ŸáŸÖ", "AED"),
   ("$", "USD"), ("USD", "USD"),
   ("‚Ç¨", "EUR"), ("EUR", "EUR"),
   ("¬£", "GBP"), ("GBP", "GBP"),
   ("‚Çπ", "INR"), ("INR", "INR"), ("Rs", "INR")]

/-- Model of `toUpperCase` (per character, ASCII). -/
def jsToUpper (cs : List Char) : List Char := cs.map Char.toUpper

/-- The `for (const [pattern, code] of Object.entries(currencyMap))`
loop of `detectCurrency`, with its `return 'AED'` default. -/
def detectCurrencyGo (upper : List Char) : List (String × String) → String
  | [] => "AED"
  | e :: rest =>
    if listContains upper (jsToUpper e.1.data) then e.2
    else detectCurrencyGo upper rest

/-- STEP 3 of the source: currency detection. -/
def detectCurrency (text : String) : String :=
  detectCurrencyGo (jsToUpper text.data) currencyEntries

/-- The keyword list of `findRevenueNumbers`. -/
def revenueKeywords : List String :=
  ["revenue", "sales", "total", "income", "earnings",
   "gross", "net", "received", "collected", "turnover"]

/-- `text.slice(Math.max(0, i - 100), Math.min(text.length, i + 100))`
lower-cased: the context window of `findRevenueNumbers`. -/
def contextWindow (text : List Char) (i : Nat) : List Char :=
  let start := i - 100
  let stop := min text.length (i + 100)
  ((text.drop start).take (stop - start)).map Char.toLower

/-- The transient `{value, confidence}` pairs of `findRevenueNumbers`. -/
structure ScoredNumber where
  value : ℚ
  confidence : ℚ
  deriving DecidableEq

/-- Scoring of one number in `findRevenueNumbers`: base confidence 0.3,
plus 0.2 per keyword found in the context window of the first textual
occurrence of the number's locale-formatted string, capped at 1. -/
def scoreNumber (text : String) (num : ℚ) : ScoredNumber :=
  let numStr := toLocaleChars num
  let conf : ℚ :=
    match firstIndexOf text.data numStr with
    | none => 3/10
    | some i =>
      let context := contextWindow text.data i
      revenueKeywords.foldl
        (fun c kw => if listContains context kw.data then c + 1/5 else c) (3/10)
  ⟨num, min conf 1⟩

/-- Stable insertion for a descending sort by `key`: the new element
goes in front of the first entry whose key is `≤` its own. -/
def insertDescBy {α : Type} (key : α → ℚ) (x : α) : List α → List α
  | [] => [x]
  | y :: ys => if key y ≤ key x then x :: y :: ys else y :: insertDescBy key x ys

/-- Stable descending sort by `key`; JavaScript `Array.prototype.sort`
is stable and a stable sort's output is uniquely determined by the key
order, so this models `.sort((a, b) => b.key - a.key)`. -/
def sortDescBy {α : Type} (key : α → ℚ) : List α → List α
  | [] => []
  | x :: xs => insertDescBy key x (sortDescBy key xs)

/-- STEP 4 of the source: score every number and sort by confidence
descending. -/
def findRevenueNumbers (text : String) (numbers : List ℚ) : List ScoredNumber :=
  sortDescBy (fun s => s.confidence) (numbers.map (scoreNumber text))

/-- STEP 5 of the source: growth percentage with divide-by-zero guard. -/
def calculateGrowth (current previous : ℚ) : ℚ :=
  if previous = 0 then 0 else (current - previous) / previous * 100

/-- Return type of `estimateBreakdown` (all three fields pass through
`Math.round` or are integer literals in the source). -/
structure Breakdown where
  thisMonth : ℤ
  lastMonth : ℤ
  growth : ℤ
  deriving DecidableEq

/-- STEP 6 of the source: period breakdown.  `sortedNumbers[2] ||
(thisMonth * 0.85)` is modelled with its JavaScript falsiness check
(a present-but-zero third value also selects the 85% estimate). -/
def estimateBreakdown (numbers : List ℚ) : Breakdown :=
  match numbers with
  | [] => ⟨0, 0, 0⟩
  | [total] =>
    let estimatedMonthly := total / 12
    ⟨jsRound estimatedMonthly, jsRound (estimatedMonthly * (4/5)), 20⟩
  | _ :: _ :: _ =>
    let sorted := sortDescBy (fun q => q) numbers
    let thisMonth := sorted.getD 1 0
    let lastMonth :=
      match sorted.get? 2 with
      | some v => if v = 0 then thisMonth * (17/20) else v
      | none => thisMonth * (17/20)
    ⟨jsRound thisMonth, jsRound lastMonth, jsRound (calculateGrowth thisMonth lastMonth)⟩

/-- The `analysisMethod` tag.  The source literal is `'mock'`; the spec
names the same tag `fallback`. -/
inductive AnalysisMethod where
  | ocr
  | mock
  deriving DecidableEq

/-- The `RevenueAnalysis` result record.  Integer-valued fields (they
pass through `Math.round` in the source or are integer constants) are
`ℤ`; `confidence` stays rational. -/
structure RevenueAnalysis where
  totalRevenue : ℤ
  currency : String
  thisMonth : ℤ
  lastMonth : ℤ
  growth : ℤ
  confidence : ℚ
  rawText : String
  detectedNumbers : List ℚ
  analysisMethod : AnalysisMethod
  deriving DecidableEq

/-- `Math.max(...xs)` for the nonempty spread `Math.max(...allNumbers)`. -/
def maxOf (x : ℚ) (xs : List ℚ) : ℚ := xs.foldl max x

/-- The success branch of `analyzeRevenueScreenshot`, as a function of
the extracted text (STEPs 2-7 and the result assembly). -/
def analyzeFromText (extractedText : String) : RevenueAnalysis :=
  let allNumbers := extractNumbers extractedText
  let currency := detectCurrency extractedText
  let revenueNumbers := findRevenueNumbers extractedText allNumbers
  let totalRevenue : ℚ :=
    match revenueNumbers with
    | s :: _ => s.value
    | [] =>
      match allNumbers with
      | [] => 0
      | x :: xs => maxOf x xs
  let breakdown := estimateBreakdown allNumbers
  let overallConfidence : ℚ :=
    match revenueNumbers with
    | s :: _ => s.confidence
    | [] => 3/10
  ⟨jsRound totalRevenue, currency, breakdown.thisMonth, breakdown.lastMonth,
   breakdown.growth, overallConfidence, extractedText, allNumbers,
   AnalysisMethod.ocr⟩

/-- The hard-coded catch-branch result of `analyzeRevenueScreenshot`. -/
def fallbackResult : RevenueAnalysis :=
  ⟨45680, "AED", 12450, 10200, 22, 1/10, "OCR failed", [], AnalysisMethod.mock⟩

/-- MAIN FUNCTION of the source.  The only fallible step is the OCR
call, whose outcome is the argument: `error` means the extractor threw
(the `catch` branch runs), `ok text` is the extracted text (every
downstream step is total).  The function itself is total: no error
propagates to the caller. -/
def analyzeRevenueScreenshot {ε : Type} (ocrOutcome : Except ε String) :
    RevenueAnalysis :=
  match ocrOutcome with
  | Except.error _ => fallbackResult
  | Except.ok text => analyzeFromText text

/-!  Spec-side definitions (written from the spec's words, to be
compared with the source-derived definitions above).  -/

/-- Spec wording of the scorer's confidence: base 0.3; if the formatted
number occurs, add 0.2 for each keyword present in the context window,
clamped to at most 1; otherwise exactly the base confidence. -/
def specConfidence (text : String) (num : ℚ) : ℚ :=
  match firstIndexOf text.data (toLocaleChars num) with
  | none => 3/10
  | some i =>
    min (3/10 + ((revenueKeywords.filter
      (fun kw => listContains (contextWindow text.data i) kw.data)).length : ℚ) / 5) 1

/-- Spec wording of currency detection: the canonical code of the
earliest entry whose uppercased marker is a substring of the uppercased
text, with the fixed regional default. -/
def specDetectCurrency (text : String) : String :=
  ((currencyEntries.find?
      (fun e => listContains (jsToUpper text.data) (jsToUpper e.1.data))).map
    (fun e => e.2)).getD "AED"

/-- Spec wording of the two-or-more branch of the breakdown estimator:
sort descending, current period = second-largest, previous period =
third-largest or 85% of the current period when no third value exists,
growth = `round(((current - previous) / previous) * 100)` with the
divide-by-zero guard. -/
def specBreakdownMulti (l : List ℚ) : Breakdown :=
  let sorted := sortDescBy (fun q => q) l
  let cur := sorted.getD 1 0
  let prev := (sorted.get? 2).getD ((17/20) * cur)
  ⟨jsRound cur, jsRound prev,
   jsRound (if prev = 0 then 0 else (cur - prev) / prev * 100)⟩

/-!  Helper lemmas.  -/

/-- The keyword-boost fold adds `1/5` once per keyword satisfying `P`. -/
theorem foldl_boost (P : String → Bool) (L : List String) (base : ℚ) :
    L.foldl (fun c kw => if P kw then c + 1/5 else c) base
      = base + ((L.filter P).length : ℚ) / 5 := by
  induction L generalizing base with
  | nil => simp
  | cons k ks ih =>
    by_cases h : P k = true
    · rw [List.foldl_cons, if_pos h, ih, List.filter_cons_of_pos h,
        List.length_cons]
      push_cast
      ring
    · rw [List.foldl_cons, if_neg h, ih, List.filter_cons_of_neg h]

/-- The source scoring agrees with the spec-worded scoring. -/
theorem scoreNumber_eq_spec (t : String) (n : ℚ) :
    scoreNumber t n = ⟨n, specConfidence t n⟩ := by
  unfold scoreNumber specConfidence
  cases h : firstIndexOf t.data (toLocaleChars n) with
  | none =>
    simp only [h]
    norm_num
  | some i =>
    simp only [h, foldl_boost]

theorem specConfidence_le_one (t : String) (n : ℚ) : specConfidence t n ≤ 1 := by
  unfold specConfidence
  cases firstIndexOf t.data (toLocaleChars n) with
  | none => norm_num
  | some i => exact min_le_right _ _

theorem specConfidence_ge (t : String) (n : ℚ) : 3/10 ≤ specConfidence t n := by
  unfold specConfidence
  cases firstIndexOf t.data (toLocaleChars n) with
  | none => norm_num
  | some i =>
    refine le_min ?_ (by norm_num)
    have hlen : (0 : ℚ) ≤ ((revenueKeywords.filter
        (fun kw => listContains (contextWindow t.data i) kw.data)).length : ℚ) / 5 := by
      positivity
    linarith

theorem scoreNumber_confidence_le_one (t : String) (n : ℚ) :
    (scoreNumber t n).confidence ≤ 1 := by
  rw [scoreNumber_eq_spec]
  exact specConfidence_le_one t n

theorem scoreNumber_confidence_ge (t : String) (n : ℚ) :
    3/10 ≤ (scoreNumber t n).confidence := by
  rw [scoreNumber_eq_spec]
  exact specConfidence_ge t n

theorem scoreNumber_value (t : String) (n : ℚ) : (scoreNumber t n).value = n := rfl

/-- Inserting is a permutation with consing. -/
theorem insertDescBy_perm {α : Type} (key : α → ℚ) (x : α) (l : List α) :
    (insertDescBy key x l).Perm (x :: l) := by
  induction l with
  | nil => exact List.Perm.refl _
  | cons y ys ih =>
    unfold insertDescBy
    by_cases h : key y ≤ key x
    · rw [if_pos h]
    · rw [if_neg h]
      exact (ih.cons y).trans (List.Perm.swap x y ys)

/-- The sort permutes its input. -/
theorem sortDescBy_perm {α : Type} (key : α → ℚ) (l : List α) :
    (sortDescBy key l).Perm l := by
  induction l with
  | nil => exact List.Perm.refl _
  | cons x xs ih => exact (insertDescBy_perm key x _).trans (ih.cons x)

/-- Inserting preserves descending order by the key. -/
theorem insertDescBy_pairwise {α : Type} (key : α → ℚ) (x : α) {l : List α}
    (h : l.Pairwise (fun a b => key b ≤ key a)) :
    (insertDescBy key x l).Pairwise (fun a b => key b ≤ key a) := by
  induction l with
  | nil => simp [insertDescBy]
  | cons y ys ih =>
    rw [List.pairwise_cons] at h
    unfold insertDescBy
    by_cases hc : key y ≤ key x
    · rw [if_pos hc]
      refine List.Pairwise.cons ?_ (List.Pairwise.cons h.1 h.2)
      intro z hz
      rcases List.mem_cons.mp hz with rfl | hz'
      · exact hc
      · exact le_trans (h.1 z hz') hc
    · rw [if_neg hc]
      refine List.Pairwise.cons ?_ (ih h.2)
      intro z hz
      rcases List.mem_cons.mp ((insertDescBy_perm key x ys).mem_iff.mp hz) with rfl | hz'
      · exact le_of_lt (lt_of_not_le hc)
      · exact h.1 z hz'

/-- The sort output is descending in the key. -/
theorem sortDescBy_pairwise {α : Type} (key : α → ℚ) (l : List α) :
    (sortDescBy key l).Pairwise (fun a b => key b ≤ key a) := by
  induction l with
  | nil => exact List.Pairwise.nil
  | cons x xs ih => exact insertDescBy_pairwise key x ih

/-- Stability, equal-key slice of an insertion, inserted-key case: the
new element lands in front of the equal-key elements already present. -/
theorem insertDescBy_filter_eq {α : Type} (key : α → ℚ) (x : α) (l : List α)
    (c : ℚ) (hx : key x = c) :
    (insertDescBy key x l).filter (fun y => decide (key y = c))
      = x :: l.filter (fun y => decide (key y = c)) := by
  induction l with
  | nil => simp [insertDescBy, hx]
  | cons y ys ih =>
    unfold insertDescBy
    by_cases hc : key y ≤ key x
    · rw [if_pos hc, List.filter_cons_of_pos (by simp [hx])]
    · rw [if_neg hc]
      have hy : ¬ key y = c := fun hyc => hc (le_of_eq (hyc.trans hx.symm))
      rw [List.filter_cons_of_neg (by simp [hy]), ih,
        List.filter_cons_of_neg (by simp [hy])]

/-- Stability, equal-key slice of an insertion, other-key case. -/
theorem insertDescBy_filter_ne {α : Type} (key : α → ℚ) (x : α) (l : List α)
    (c : ℚ) (hx : ¬ key x = c) :
    (insertDescBy key x l).filter (fun y => decide (key y = c))
      = l.filter (fun y => decide (key y = c)) := by
  induction l with
  | nil => simp [insertDescBy, hx]
  | cons y ys ih =>
    unfold insertDescBy
    by_cases hc : key y ≤ key x
    · rw [if_pos hc, List.filter_cons_of_neg (by simp [hx])]
    · rw [if_neg hc]
      by_cases hy : key y = c
      · rw [List.filter_cons_of_pos (by simp [hy]),
          List.filter_cons_of_pos (by simp [hy]), ih]
      · rw [List.filter_cons_of_neg (by simp [hy]),
          List.filter_cons_of_neg (by simp [hy]), ih]

/-- Stability of the sort: for every key value, the equal-key elements
appear in the output exactly as they appear in the input. -/
theorem sortDescBy_filter {α : Type} (key : α → ℚ) (l : List α) (c : ℚ) :
    (sortDescBy key l).filter (fun y => decide (key y = c))
      = l.filter (fun y => decide (key y = c)) := by
  induction l with
  | nil => rfl
  | cons x xs ih =>
    unfold sortDescBy
    by_cases hx : key x = c
    · rw [insertDescBy_filter_eq key x _ c hx, ih,
        List.filter_cons_of_pos (by simp [hx])]
    · rw [insertDescBy_filter_ne key x _ c hx, ih,
        List.filter_cons_of_neg (by simp [hx])]

theorem sortDescBy_eq_nil_iff {α : Type} (key : α → ℚ) (l : List α) :
    sortDescBy key l = [] ↔ l = [] := by
  constructor
  · intro h
    have hp := sortDescBy_perm key l
    rw [h] at hp
    exact (hp.symm).eq_nil
  · intro h
    rw [h]
    rfl

/-- Everything the tokenizer keeps is positive. -/
theorem extractNumbers_pos (t : String) : ∀ q ∈ extractNumbers t, 0 < q := by
  intro q hq
  unfold extractNumbers at hq
  exact of_decide_eq_true (List.mem_filter.mp hq).2

theorem le_foldl_max (xs : List ℚ) (a : ℚ) : a ≤ xs.foldl max a := by
  induction xs generalizing a with
  | nil => exact le_refl a
  | cons y ys ih =>
    rw [List.foldl_cons]
    exact le_trans (le_max_left a y) (ih (max a y))

theorem jsRound_nonneg {q : ℚ} (h : 0 ≤ q) : 0 ≤ jsRound q := by
  unfold jsRound
  refine Int.le_floor.mpr ?_
  push_cast
  linarith

/-- Scored entries come from scoring input numbers. -/
theorem mem_findRevenueNumbers {t : String} {ns : List ℚ} {s : ScoredNumber}
    (h : s ∈ findRevenueNumbers t ns) : ∃ n ∈ ns, scoreNumber t n = s := by
  unfold findRevenueNumbers at h
  exact List.mem_map.mp ((sortDescBy_perm _ _).mem_iff.mp h)

/-- The currency loop returns the code of the first matching entry. -/
theorem detectCurrencyGo_eq_find (upper : List Char)
    (table : List (String × String)) :
    detectCurrencyGo upper table
      = ((table.find? (fun e => listContains upper (jsToUpper e.1.data))).map
          (fun e => e.2)).getD "AED" := by
  induction table with
  | nil => rfl
  | cons e rest ih =>
    unfold detectCurrencyGo
    by_cases h : listContains upper (jsToUpper e.1.data) = true
    · rw [if_pos h,
        List.find?_cons_of_pos (p := fun x => listContains upper (jsToUpper x.1.data)) rest h]
      rfl
    · rw [if_neg h,
        List.find?_cons_of_neg (p := fun x => listContains upper (jsToUpper x.1.data)) rest h, ih]

/-- A list is a Boolean prefix of itself followed by anything. -/
theorem isPrefixOf_append (l t : List Char) : l.isPrefixOf (l ++ t) = true := by
  induction l with
  | nil => simp [List.isPrefixOf]
  | cons a as ih => simp [List.isPrefixOf, ih]

/-- A substring occurrence is found by the index scan. -/
theorem listContains_of_occurs {pat cs : List Char} (h : pat <:+: cs) :
    listContains cs pat = true := by
  obtain ⟨s, u, rfl⟩ := h
  induction s with
  | nil =>
    show listContains (pat ++ u) pat = true
    unfold listContains firstIndexOf
    rw [if_pos (isPrefixOf_append pat u)]
    rfl
  | cons c s ih =>
    show listContains (c :: (s ++ pat ++ u)) pat = true
    unfold listContains firstIndexOf
    by_cases hp : pat.isPrefixOf (c :: (s ++ pat ++ u)) = true
    · rw [if_pos hp]
      rfl
    · rw [if_neg hp]
      show ((firstIndexOf (s ++ pat ++ u) pat).map (fun k => k + 1)).isSome = true
      unfold listContains at ih
      cases hfi : firstIndexOf (s ++ pat ++ u) pat with
      | none => rw [hfi] at ih; exact absurd ih (by simp)
      | some k => rfl

/-- `parseTok` in terms of its integer-part value, fraction-part value
and fraction length (each a closed natural-number computation). -/
theorem parseTok_eq (tok : List Char) (a b k : ℕ)
    (ha : digitsToNat ((tok.filter (fun c => c != ',')).takeWhile
        (fun c => c != '.')) = a)
    (hb : digitsToNat (((tok.filter (fun c => c != ',')).dropWhile
        (fun c => c != '.')).drop 1) = b)
    (hk : (((tok.filter (fun c => c != ',')).dropWhile
        (fun c => c != '.')).drop 1).length = k) :
    parseTok tok = (a : ℚ) + (b : ℚ) / 10 ^ k := by
  subst ha hb hk
  rfl

/-- Evaluation scheme for `extractNumbers` on a one-token text whose
value is kept. -/
theorem extractNumbers_single (t : String) (tok : List Char) (q : ℚ)
    (htok : tokenize t.data = [tok]) (hq : parseTok tok = q) (hpos : 0 < q) :
    extractNumbers t = [q] := by
  unfold extractNumbers
  rw [htok, List.map_cons, List.map_nil, hq,
    List.filter_cons_of_pos (p := fun x => decide (0 < x)) (decide_eq_true hpos)]
  rfl

/-- Evaluation scheme for `extractNumbers` on a one-token text whose
value is dropped. -/
theorem extractNumbers_single_dropped (t : String) (tok : List Char) (q : ℚ)
    (htok : tokenize t.data = [tok]) (hq : parseTok tok = q) (hnot : ¬ 0 < q) :
    extractNumbers t = [] := by
  unfold extractNumbers
  rw [htok, List.map_cons, List.map_nil, hq,
    List.filter_cons_of_neg (p := fun x => decide (0 < x)) (by simpa using hnot)]
  rfl

/-!  Claim theorems.  -/

/-- Claim C1: when OCR text extraction fails (the extractor throws, for
any failure cause), `analyzeRevenueScreenshot` returns exactly the fixed
fallback result totalRevenue 45680, currency "AED", thisPeriod 12450,
previousPeriod 10200, growth 22, confidence 0.1, rawText "OCR failed",
empty detectedNumbers, and the fallback method tag (source literal
`'mock'`, which the spec names `fallback`); the function is total, so no
error propagates and no retry occurs. -/
theorem analyze_error_gives_fixed_fallback {ε : Type} (e : ε) :
    analyzeRevenueScreenshot (Except.error e)
      = ⟨45680, "AED", 12450, 10200, 22, 1/10, "OCR failed", [],
         AnalysisMethod.mock⟩ := rfl

/-- Witness for C1 at the concrete failure cause `0 : ℕ`. -/
theorem analyze_error_gives_fixed_fallback_witness :
    analyzeRevenueScreenshot (Except.error (0 : ℕ))
      = ⟨45680, "AED", 12450, 10200, 22, 1/10, "OCR failed", [],
         AnalysisMethod.mock⟩ :=
  analyze_error_gives_fixed_fallback 0

/-- Claim C2, counterexample: the claim says the token of `"-5"` is
excluded from the output, but the number pattern has no sign, so the
digit `5` is matched, parsed and kept: the output is `[5]`, not empty. -/
theorem extractNumbers_neg_example_kept :
    extractNumbers "-5" = [5] ∧ extractNumbers "-5" ≠ [] := by
  have h : extractNumbers "-5" = [5] :=
    extractNumbers_single "-5" ['5'] 5 (by decide)
      (by rw [parseTok_eq ['5'] 5 0 0 rfl rfl rfl]; norm_num) (by norm_num)
  refine ⟨h, ?_⟩
  rw [h]
  simp

/-- Claim C2 (amended): `"1,234.56"` parses to the single value 1234.56;
`"99"` and `"99.00"` both parse to 99; `"0"` is excluded; on `"-5"` the
minus sign is not part of any token, so the token `"5"` parses to 5 and
is kept; and for every input text every token that is zero or does not
parse to a positive finite value is discarded (all retained values are
positive). -/
theorem extractNumbers_examples_and_filter :
    extractNumbers "1,234.56" = [1234.56]
    ∧ extractNumbers "99" = [99]
    ∧ extractNumbers "99.00" = [99]
    ∧ extractNumbers "0" = []
    ∧ extractNumbers "-5" = [5]
    ∧ ∀ (t : String) (q : ℚ), q ∈ extractNumbers t → 0 < q := by
  refine ⟨?_, ?_, ?_, ?_, ?_, fun t q h => extractNumbers_pos t q h⟩
  · refine extractNumbers_single _ ['1', ',', '2', '3', '4', '.', '5', '6'] _
      (by decide) ?_ (by norm_num)
    rw [parseTok_eq ['1', ',', '2', '3', '4', '.', '5', '6'] 1234 56 2 rfl rfl rfl]
    norm_num
  · refine extractNumbers_single _ ['9', '9'] _ (by decide) ?_ (by norm_num)
    rw [parseTok_eq ['9', '9'] 99 0 0 rfl rfl rfl]
    norm_num
  · refine extractNumbers_single _ ['9', '9', '.', '0', '0'] _ (by decide) ?_
      (by norm_num)
    rw [parseTok_eq ['9', '9', '.', '0', '0'] 99 0 2 rfl rfl rfl]
    norm_num
  · refine extractNumbers_single_dropped _ ['0'] 0 (by decide) ?_ (by norm_num)
    rw [parseTok_eq ['0'] 0 0 0 rfl rfl rfl]
    norm_num
  · refine extractNumbers_single _ ['5'] _ (by decide) ?_ (by norm_num)
    rw [parseTok_eq ['5'] 5 0 0 rfl rfl rfl]
    norm_num

/-- Witness for C2's amended positivity clause at text `"99"`, value 99. -/
theorem extractNumbers_examples_and_filter_witness : (0 : ℚ) < 99 := by
  have h := extractNumbers_examples_and_filter
  exact h.2.2.2.2.2 "99" 99 (by rw [h.2.1]; exact List.mem_cons_self _ _)

/-- Claim C7: the currency detector returns the canonical code of the
earliest entry of the priority table whose uppercased marker occurs in
the uppercased text; a text containing `"AED 500"` yields `"AED"`; with
no match the fixed regional default `"AED"` is returned; and a text with
both `"$"` and `"EUR"` yields the earlier-declared code, `"USD"`. -/
theorem detectCurrency_first_marker (t : String) :
    detectCurrency t = specDetectCurrency t
    ∧ ("AED 500".data <:+: t.data → detectCurrency t = "AED")
    ∧ ((currencyEntries.find?
          (fun e => listContains (jsToUpper t.data) (jsToUpper e.1.data))) = none →
        detectCurrency t = "AED")
    ∧ detectCurrency "$ 100 EUR" = "USD" := by
  refine ⟨detectCurrencyGo_eq_find _ _, ?_, ?_, by decide⟩
  · intro h
    have h1 : "AED".data <:+: t.data :=
      List.IsInfix.trans ⟨[], " 500".data, rfl⟩ h
    have h2 : listContains (jsToUpper t.data) (jsToUpper "AED".data) = true := by
      apply listContains_of_occurs
      unfold jsToUpper
      exact List.IsInfix.map Char.toUpper h1
    show detectCurrencyGo (jsToUpper t.data) currencyEntries = "AED"
    unfold currencyEntries detectCurrencyGo
    rw [if_pos h2]
  · intro h
    show detectCurrencyGo (jsToUpper t.data) currencyEntries = "AED"
    rw [detectCurrencyGo_eq_find, h]
    rfl

/-- Witness for C7 at the concrete text `"AED 500"`. -/
theorem detectCurrency_first_marker_witness : detectCurrency "AED 500" = "AED" :=
  (detectCurrency_first_marker "AED 500").2.1 ⟨[], [], rfl⟩

/-- Claim C9: the detected-numbers sequence contains only (finite)
positive values, is the order-preserving subsequence of the parsed
token sequence (tokens in order of appearance in the text), and keeps
duplicates: every positive value occurs exactly as often as among the
parsed tokens. -/
theorem extractNumbers_order_invariants (t : String) :
    (∀ q ∈ extractNumbers t, 0 < q)
    ∧ (extractNumbers t).Sublist ((tokenize t.data).map parseTok)
    ∧ ∀ q : ℚ, 0 < q →
        (extractNumbers t).count q = ((tokenize t.data).map parseTok).count q := by
  refine ⟨extractNumbers_pos t, List.filter_sublist _, ?_⟩
  intro q hq
  exact List.count_filter (decide_eq_true hq)

/-- Witness for C9 at text `"7"`, value 7. -/
theorem extractNumbers_order_invariants_witness :
    (extractNumbers "7").count 7 = ((tokenize "7".data).map parseTok).count 7 :=
  (extractNumbers_order_invariants "7").2.2 7 (by norm_num)

theorem specConfidence_of_none {t : String} {n : ℚ}
    (h : firstIndexOf t.data (toLocaleChars n) = none) :
    specConfidence t n = 3/10 := by
  unfold specConfidence
  rw [h]

theorem specConfidence_of_some {t : String} {n : ℚ} {i : Nat}
    (h : firstIndexOf t.data (toLocaleChars n) = some i) :
    specConfidence t n
      = min (3/10 + ((revenueKeywords.filter
          (fun kw => listContains (contextWindow t.data i) kw.data)).length : ℚ) / 5) 1 := by
  unfold specConfidence
  rw [h]

/-- Claim C3: the breakdown estimator, on a list of detected (hence
positive) numbers, returns all zeros on `[]`; on `[x]` returns
`round(x/12)`, `round(0.8 * (x/12))` and growth 20; on two or more
numbers follows the sorted-descending second/third-largest rule with the
85% synthetic previous period and the guarded growth formula
(`specBreakdownMulti`); `[100, 50, 10]` yields (50, 10, 400) and
`[1200]` yields (100, 80, 20). -/
theorem estimateBreakdown_cases (l : List ℚ) (hpos : ∀ q ∈ l, 0 < q) :
    (l = [] → estimateBreakdown l = ⟨0, 0, 0⟩)
    ∧ (∀ x : ℚ, l = [x] →
        estimateBreakdown l = ⟨jsRound (x / 12), jsRound ((4/5) * (x / 12)), 20⟩)
    ∧ (2 ≤ l.length → estimateBreakdown l = specBreakdownMulti l)
    ∧ estimateBreakdown [100, 50, 10] = ⟨50, 10, 400⟩
    ∧ estimateBreakdown [1200] = ⟨100, 80, 20⟩ := by
  refine ⟨?_, ?_, ?_, ?_, ?_⟩
  · intro h
    subst h
    rfl
  · intro x hx
    subst hx
    show (⟨jsRound (x / 12), jsRound ((x / 12) * (4/5)), 20⟩ : Breakdown)
      = ⟨jsRound (x / 12), jsRound ((4/5) * (x / 12)), 20⟩
    rw [mul_comm]
  · intro hlen
    rcases l with _ | ⟨a, _ | ⟨b, rest⟩⟩
    · simp at hlen
    · simp at hlen
    · simp only [estimateBreakdown, specBreakdownMulti]
      cases h2 : (sortDescBy (fun q => q) (a :: b :: rest)).get? 2 with
      | none =>
        simp only [h2, Option.getD_none, calculateGrowth]
        rw [mul_comm]
      | some v =>
        have hv : 0 < v :=
          hpos v ((sortDescBy_perm (fun q => q) _).mem_iff.mp (List.get?_mem h2))
        simp only [h2, Option.getD_some, calculateGrowth, if_neg hv.ne']
  · norm_num [estimateBreakdown, sortDescBy, insertDescBy, calculateGrowth, jsRound]
  · norm_num [estimateBreakdown, jsRound]

/-- Witness for C3 at the concrete list `[100, 50, 10]`. -/
theorem estimateBreakdown_cases_witness :
    estimateBreakdown [100, 50, 10] = ⟨50, 10, 400⟩ :=
  (estimateBreakdown_cases [100, 50, 10]
    (by intro q hq; simp at hq; rcases hq with rfl | rfl | rfl <;> norm_num)).2.2.2.1

/-- Claim C10: on a list of exactly two positive numbers the estimator's
growth is the constant 18: the current period is the smaller value, the
previous period is synthesised as 85% of it, and
`round(((m - 0.85m)/(0.85m))*100) = round(300/17) = 18` for every m. -/
theorem two_numbers_growth_eighteen (a b : ℚ) (ha : 0 < a) (hb : 0 < b) :
    (estimateBreakdown [a, b]).growth = 18
    ∧ (estimateBreakdown [a, b]).thisMonth = jsRound (min a b)
    ∧ (estimateBreakdown [a, b]).lastMonth = jsRound ((17/20) * min a b) := by
  have key : ∀ m : ℚ, 0 < m → calculateGrowth m (m * (17/20)) = 300/17 := by
    intro m hm
    have hne : m * (17/20) ≠ 0 := (mul_pos hm (by norm_num)).ne'
    unfold calculateGrowth
    rw [if_neg hne]
    field_simp
    ring
  have hjr : jsRound (300/17 : ℚ) = 18 := by norm_num [jsRound]
  by_cases hba : b ≤ a
  · have hsort : sortDescBy (fun q => q) [a, b] = [a, b] := by
      simp [sortDescBy, insertDescBy, hba]
    have hmin : min a b = b := min_eq_right hba
    have hbd : estimateBreakdown [a, b]
        = ⟨jsRound b, jsRound (b * (17/20)),
           jsRound (calculateGrowth b (b * (17/20)))⟩ := by
      unfold estimateBreakdown
      rw [hsort]
      rfl
    refine ⟨?_, ?_, ?_⟩
    · rw [hbd]
      show jsRound (calculateGrowth b (b * (17/20))) = 18
      rw [key b hb, hjr]
    · rw [hbd, hmin]
    · rw [hbd, hmin]
      show jsRound (b * (17/20)) = jsRound ((17/20) * b)
      rw [mul_comm]
  · have hab : a ≤ b := le_of_not_le hba
    have hsort : sortDescBy (fun q => q) [a, b] = [b, a] := by
      simp [sortDescBy, insertDescBy, hba]
    have hmin : min a b = a := min_eq_left hab
    have hbd : estimateBreakdown [a, b]
        = ⟨jsRound a, jsRound (a * (17/20)),
           jsRound (calculateGrowth a (a * (17/20)))⟩ := by
      unfold estimateBreakdown
      rw [hsort]
      rfl
    refine ⟨?_, ?_, ?_⟩
    · rw [hbd]
      show jsRound (calculateGrowth a (a * (17/20))) = 18
      rw [key a ha, hjr]
    · rw [hbd, hmin]
    · rw [hbd, hmin]
      show jsRound (a * (17/20)) = jsRound ((17/20) * a)
      rw [mul_comm]

/-- Witness for C10 at the concrete pair (2, 3). -/
theorem two_numbers_growth_eighteen_witness :
    (estimateBreakdown [2, 3]).growth = 18 :=
  (two_numbers_growth_eighteen 2 3 (by norm_num) (by norm_num)).1

/-- Claim C5: the scorer assigns every number the spec-worded confidence
(base 0.3; if the number's group-formatted string occurs in the text,
plus 0.2 per keyword present in the 100-character window around its
first occurrence, clamped to 1; exactly 0.3 when the formatted string
does not occur), and the output is the stable descending-by-confidence
sort of the scored input: it is sorted descending, and for every
confidence value the equal-confidence entries appear exactly in input
order. -/
theorem findRevenueNumbers_scores_and_sorts (t : String) (ns : List ℚ) :
    findRevenueNumbers t ns
        = sortDescBy (fun s => s.confidence)
            (ns.map (fun n => (⟨n, specConfidence t n⟩ : ScoredNumber)))
    ∧ (findRevenueNumbers t ns).Pairwise (fun a b => b.confidence ≤ a.confidence)
    ∧ ∀ c : ℚ,
        (findRevenueNumbers t ns).filter (fun s => decide (s.confidence = c))
          = (ns.map (scoreNumber t)).filter (fun s => decide (s.confidence = c)) := by
  refine ⟨?_, ?_, ?_⟩
  · unfold findRevenueNumbers
    rw [List.map_congr_left (fun n _ => scoreNumber_eq_spec t n)]
  · exact sortDescBy_pairwise (fun s : ScoredNumber => s.confidence) _
  · intro c
    exact sortDescBy_filter (fun s : ScoredNumber => s.confidence) _ c

/-- Witness for C5 at the concrete text `"revenue 5"` and list `[5]`. -/
theorem findRevenueNumbers_scores_and_sorts_witness :
    (findRevenueNumbers "revenue 5" [5]).Pairwise
      (fun a b => b.confidence ≤ a.confidence) :=
  (findRevenueNumbers_scores_and_sorts "revenue 5" [5]).2.1

/-- Claim C6: a number whose formatted string occurs with the keyword
"revenue" inside its context window scores strictly higher than the same
number in a text where it has no keyword context (not found, or found
with no keyword in the window); and no confidence ever exceeds 1. -/
theorem scorer_monotonic_and_capped :
    (∀ (t1 t2 : String) (n : ℚ) (i : Nat),
        firstIndexOf t1.data (toLocaleChars n) = some i →
        listContains (contextWindow t1.data i) "revenue".data = true →
        (match firstIndexOf t2.data (toLocaleChars n) with
          | none => True
          | some j => ∀ kw ∈ revenueKeywords,
              listContains (contextWindow t2.data j) kw.data = false) →
        (scoreNumber t2 n).confidence < (scoreNumber t1 n).confidence)
    ∧ ∀ (t : String) (m : ℚ), (scoreNumber t m).confidence ≤ 1 := by
  constructor
  · intro t1 t2 n i h1 h2 h3
    rw [scoreNumber_eq_spec t1 n, scoreNumber_eq_spec t2 n]
    show specConfidence t2 n < specConfidence t1 n
    have hub : specConfidence t2 n = 3/10 := by
      cases hf : firstIndexOf t2.data (toLocaleChars n) with
      | none => exact specConfidence_of_none hf
      | some j =>
        rw [hf] at h3
        have hfil : (revenueKeywords.filter
            (fun kw => listContains (contextWindow t2.data j) kw.data)) = [] :=
          List.filter_eq_nil_iff.mpr (fun kw hkw => by simp [h3 kw hkw])
        rw [specConfidence_of_some hf, hfil]
        norm_num
    have hlb : (1:ℚ)/2 ≤ specConfidence t1 n := by
      rw [specConfidence_of_some h1]
      have hmem : "revenue" ∈ revenueKeywords := by simp [revenueKeywords]
      have hfil : "revenue" ∈ revenueKeywords.filter
          (fun kw => listContains (contextWindow t1.data i) kw.data) :=
        List.mem_filter.mpr ⟨hmem, h2⟩
      have hlen : 1 ≤ (revenueKeywords.filter
          (fun kw => listContains (contextWindow t1.data i) kw.data)).length :=
        List.length_pos.mpr (List.ne_nil_of_mem hfil)
      refine le_min ?_ (by norm_num)
      have hc : (1:ℚ) ≤ ((revenueKeywords.filter
          (fun kw => listContains (contextWindow t1.data i) kw.data)).length : ℚ) := by
        exact_mod_cast hlen
      linarith
    calc specConfidence t2 n = 3/10 := hub
      _ < 1/2 := by norm_num
      _ ≤ specConfidence t1 n := hlb
  · intro t m
    exact scoreNumber_confidence_le_one t m

/-- Claim C8: for every extractor outcome the orchestrator's result has
confidence in [0, 1] and nonnegative total revenue; the orchestrator is
a total function of that outcome, so no error reaches its caller. -/
theorem analyze_total_and_confidence_bounds {ε : Type} (r : Except ε String) :
    0 ≤ (analyzeRevenueScreenshot r).confidence
    ∧ (analyzeRevenueScreenshot r).confidence ≤ 1
    ∧ 0 ≤ (analyzeRevenueScreenshot r).totalRevenue := by
  cases r with
  | error e =>
    refine ⟨by norm_num [analyzeRevenueScreenshot, fallbackResult],
      by norm_num [analyzeRevenueScreenshot, fallbackResult],
      by norm_num [analyzeRevenueScreenshot, fallbackResult]⟩
  | ok t =>
    show 0 ≤ (analyzeFromText t).confidence
      ∧ (analyzeFromText t).confidence ≤ 1
      ∧ 0 ≤ (analyzeFromText t).totalRevenue
    have hconf : (analyzeFromText t).confidence
        = (match findRevenueNumbers t (extractNumbers t) with
            | s :: _ => s.confidence
            | [] => 3/10) := rfl
    have htot : (analyzeFromText t).totalRevenue
        = jsRound (match findRevenueNumbers t (extractNumbers t) with
            | s :: _ => s.value
            | [] =>
              match extractNumbers t with
              | [] => 0
              | x :: xs => maxOf x xs) := rfl
    rw [hconf, htot]
    cases hsc : findRevenueNumbers t (extractNumbers t) with
    | nil =>
      refine ⟨by norm_num, by norm_num, ?_⟩
      cases hex : extractNumbers t with
      | nil => exact jsRound_nonneg (le_refl 0)
      | cons x xs =>
        have hx : 0 < x :=
          extractNumbers_pos t x (by rw [hex]; exact List.mem_cons_self x xs)
        exact jsRound_nonneg (le_trans hx.le (le_foldl_max xs x))
    | cons s rest =>
      have hs : s ∈ findRevenueNumbers t (extractNumbers t) := by
        rw [hsc]
        exact List.mem_cons_self s rest
      obtain ⟨n, hn, hsn⟩ := mem_findRevenueNumbers hs
      have hvpos : 0 < s.value := by
        rw [← hsn, scoreNumber_value]
        exact extractNumbers_pos t n hn
      have h1 : 3/10 ≤ s.confidence := by
        rw [← hsn]
        exact scoreNumber_confidence_ge t n
      have h2 : s.confidence ≤ 1 := by
        rw [← hsn]
        exact scoreNumber_confidence_le_one t n
      exact ⟨by linarith, h2, jsRound_nonneg hvpos.le⟩

/-- Witness for C8 at a concrete successful outcome. -/
theorem analyze_total_and_confidence_bounds_witness :
    0 ≤ (analyzeRevenueScreenshot (Except.ok "Revenue 100" : Except Unit String)).confidence
    ∧ (analyzeRevenueScreenshot (Except.ok "Revenue 100" : Except Unit String)).confidence ≤ 1
    ∧ 0 ≤ (analyzeRevenueScreenshot (Except.ok "Revenue 100" : Except Unit String)).totalRevenue :=
  analyze_total_and_confidence_bounds (Except.ok "Revenue 100")

theorem toLocale_five : toLocaleChars 5 = ['5'] := by
  unfold toLocaleChars
  rw [if_neg (by norm_num : ¬ ((5:ℚ) < 0))]
  unfold toLocaleAbs
  rw [show ⌊(5:ℚ) * 1000 + 1/2⌋ = 5000 by norm_num]
  decide

theorem toLocale_half : toLocaleChars (1/2) = ['0', '.', '5'] := by
  unfold toLocaleChars
  rw [if_neg (by norm_num : ¬ ((1:ℚ)/2 < 0))]
  unfold toLocaleAbs
  rw [show ⌊(1:ℚ)/2 * 1000 + 1/2⌋ = 500 by norm_num]
  decide

/-- Witness for C6: the number 5 next to "revenue" beats the same number
in the keyword-free text "cat 5". -/
theorem scorer_monotonic_and_capped_witness :
    (scoreNumber "cat 5" 5).confidence < (scoreNumber "revenue 5" 5).confidence :=
  scorer_monotonic_and_capped.1 "revenue 5" "cat 5" 5 8
    (by rw [toLocale_five]; decide) (by decide)
    (by
      rw [toLocale_five]
      show ∀ kw ∈ revenueKeywords,
        listContains (contextWindow "cat 5".data 4) kw.data = false
      decide)

/-- Claim C4, counterexample: on the successful path the returned
`totalRevenue` is `Math.round` of the top-ranked scored number, not that
number itself: for extracted text `"0.5"` the top-ranked scored number
is 0.5 (confidence 0.3) while the returned `totalRevenue` is 1. -/
theorem totalRevenue_not_top_value_cex :
    (((analyzeFromText "0.5").totalRevenue : ℚ)
        ≠ ((findRevenueNumbers "0.5" (extractNumbers "0.5")).headD ⟨0, 3/10⟩).value)
    ∧ (findRevenueNumbers "0.5" (extractNumbers "0.5")).headD ⟨0, 3/10⟩
        = ⟨1/2, 3/10⟩
    ∧ (analyzeFromText "0.5").totalRevenue = 1 := by
  have hex : extractNumbers "0.5" = [1/2] :=
    extractNumbers_single "0.5" ['0', '.', '5'] (1/2) (by decide)
      (by rw [parseTok_eq ['0', '.', '5'] 0 5 1 rfl rfl rfl]; norm_num)
      (by norm_num)
  have hfi : firstIndexOf "0.5".data (toLocaleChars (1/2)) = some 0 := by
    rw [toLocale_half]
    decide
  have hscore : scoreNumber "0.5" (1/2) = ⟨1/2, 3/10⟩ := by
    rw [scoreNumber_eq_spec, specConfidence_of_some hfi,
      show revenueKeywords.filter
        (fun kw => listContains (contextWindow "0.5".data 0) kw.data) = [] by decide]
    norm_num
  have hfind : findRevenueNumbers "0.5" (extractNumbers "0.5") = [⟨1/2, 3/10⟩] := by
    rw [hex]
    unfold findRevenueNumbers
    rw [List.map_cons, List.map_nil, hscore]
    rfl
  have htot : (analyzeFromText "0.5").totalRevenue = 1 := by
    have h0 : (analyzeFromText "0.5").totalRevenue
        = jsRound (match findRevenueNumbers "0.5" (extractNumbers "0.5") with
            | s :: _ => s.value
            | [] =>
              match extractNumbers "0.5" with
              | [] => 0
              | x :: xs => maxOf x xs) := rfl
    rw [h0, hfind]
    show jsRound (1/2) = 1
    norm_num [jsRound]
  refine ⟨?_, ?_, htot⟩
  · rw [htot, hfind]
    show ((1 : ℤ) : ℚ) ≠ (1/2 : ℚ)
    norm_num
  · rw [hfind]
    rfl

/-- Claim C4 (amended): on the successful OCR path the returned
`totalRevenue` is `Math.round` of the top-ranked scored number (of the
maximum raw number if scoring produced no candidates but raw numbers
exist, of 0 if there are no numbers); the final confidence is the top
scored candidate's confidence or 0.3 if none; the method tag is the OCR
tag; and scoring produces no candidates exactly when there are no raw
numbers, so the maximum-raw branch is unreachable. -/
theorem ocr_path_fields (t : String) :
    (analyzeFromText t).totalRevenue
        = jsRound (match findRevenueNumbers t (extractNumbers t) with
            | s :: _ => s.value
            | [] =>
              match extractNumbers t with
              | [] => 0
              | x :: xs => maxOf x xs)
    ∧ (analyzeFromText t).confidence
        = (match findRevenueNumbers t (extractNumbers t) with
            | s :: _ => s.confidence
            | [] => 3/10)
    ∧ (analyzeFromText t).analysisMethod = AnalysisMethod.ocr
    ∧ (findRevenueNumbers t (extractNumbers t) = [] ↔ extractNumbers t = []) := by
  refine ⟨rfl, rfl, rfl, ?_⟩
  unfold findRevenueNumbers
  rw [sortDescBy_eq_nil_iff]
  exact ⟨fun h => List.map_eq_nil_iff.mp h, fun h => by rw [h]; rfl⟩

/-- Witness for C4's amended claim at the concrete text `""`. -/
theorem ocr_path_fields_witness :
    (analyzeFromText "").analysisMethod = AnalysisMethod.ocr :=
  (ocr_path_fields "").2.2.1
